import Mathlib

/-!
Verification of the unicode-explorer bitmap/SVG font converter.

The development shallowly embeds the two source files:
  * `converter.py`  — bitmap extraction (sbix / CBDT / rendered fallback) and
    the sbix table builder;
  * `make_svg_font.py` — empty-outline stubbing, SVG document generation and
    bitmap-table stripping.

Bytes are modelled as natural numbers, Python `bytes` values as `List Nat`,
Python dicts as association lists looked up with `List.lookup` (first match),
and a raised-and-uncaught Python exception as `Except.error ()`.  The external
collaborators (the PIL image codec and the FreeType face) are parameters:
`dec : ByteSeq → Option RasterImage` models `Image.open(...).convert("RGBA")`
with `none` standing for a raised decode exception, and
`loadGlyph : String → Option FtBitmap` models `face.load_glyph` with `none`
standing for a raised `FT_Exception`.
-/

namespace UnicodeExplorer

/-- A sequence of byte values (a Python `bytes` object). -/
abbrev ByteSeq := List Nat

/-- A decoded raster image: width, height and the flat RGBA8 pixel buffer. -/
structure RasterImage where
  width : Nat
  height : Nat
  pixels : List Nat
  deriving DecidableEq, Repr

/-! ### The sbix / CBDT data model (inputs of `extract_images`) -/

/-- One glyph entry of an sbix strike: the raw image bytes (`.data`). -/
structure SbixGlyphEntry where
  data : ByteSeq
  deriving DecidableEq, Repr

/-- One sbix strike: its ppem, resolution and glyph-name-keyed data dict. -/
structure SbixStrike where
  ppem : Nat
  resolution : Nat
  glyphData : List (String × SbixGlyphEntry)
  deriving DecidableEq, Repr

/-- One CBDT glyph record; `.data` may be absent (`getattr(..., "data", None)`). -/
structure CbdtRecord where
  data : Option ByteSeq
  deriving DecidableEq, Repr

/-- One CBDT strike: a glyph-name-keyed dict of records. -/
abbrev CbdtStrike := List (String × CbdtRecord)

/-! ### Strike selection (converter.py lines 34-40) -/

/-- Python's `max(xs, key=ppem)` starting from `a`: later elements replace the
current best only when strictly larger, so the first maximal element wins. -/
def pyMaxByPpem (a : SbixStrike) : List SbixStrike → SbixStrike
  | [] => a
  | b :: rest => pyMaxByPpem (if b.ppem > a.ppem then b else a) rest

/-- `chosen_sbix`: when the sbix table is present and its strike list is
non-empty, the strike of maximum ppem (first maximal); otherwise `none`. -/
def chooseSbixStrike : Option (List SbixStrike) → Option SbixStrike
  | some (a :: rest) => some (pyMaxByPpem a rest)
  | _ => none

/-- `chosen_cbdt = cbdt_strikes[-1] if cbdt_strikes else None`. -/
def chooseCbdtStrike (strikes : List CbdtStrike) : Option CbdtStrike :=
  strikes.getLast?

/-! ### The CBDT record decoder (converter.py lines 52-62) -/

/-- The PNG magic signature `b"\x89PNG"` scanned for by the decoder. -/
def pngSignature : ByteSeq := [137, 80, 78, 71]

/-- `lst.find(pat)` as in Python `bytes.find`: the least index at which `pat`
occurs as a contiguous block, or `none`. -/
def findSubIdx {α : Type} [DecidableEq α] (pat : List α) : List α → Option Nat
  | [] => if pat = [] then some 0 else none
  | a :: rest =>
    if pat.isPrefixOf (a :: rest) then some 0
    else (findSubIdx pat rest).map (· + 1)

/-- `struct.unpack(">I", bs)[0]` for a four-byte slice; other lengths raise in
Python and are handled by the caller before this is consulted. -/
def beUint32 (bs : ByteSeq) : Nat :=
  match bs with
  | [b0, b1, b2, b3] => ((b0 * 256 + b1) * 256 + b2) * 256 + b3
  | _ => 0

/-- The byte-selection step of the CBDT record decoder: scan the blob for the
PNG signature and slice from the hit to the end; otherwise read the big-endian
uint32 at offset 5 and slice that many bytes from offset 9.  `none` models the
`struct.error` raised (and caught by the surrounding `try`) when the blob is
shorter than 9 bytes, so that `data[5:9]` is not a 4-byte slice. -/
def cbdtImageBytes (data : ByteSeq) : Option ByteSeq :=
  match findSubIdx pngSignature data with
  | some off => some (data.drop off)
  | none =>
    if 9 ≤ data.length then
      some ((data.drop 9).take (beUint32 ((data.drop 5).take 4)))
    else none

/-! ### Rendering fallback (converter.py lines 12-27) -/

/-- A FreeType coverage bitmap: `bmp.width`, `bmp.rows`, `bmp.buffer`. -/
structure FtBitmap where
  width : Nat
  rows : Nat
  buffer : List Nat
  deriving DecidableEq, Repr

/-- `putalpha`: an all-black fully-transparent RGBA image whose alpha channel
is the grayscale coverage buffer. -/
def rgbaFromCoverage (buffer : List Nat) : List Nat :=
  buffer.flatMap (fun a => [0, 0, 0, a])

/-- `render_glyph`: load and render the glyph; a zero-width or zero-row bitmap
yields no image, otherwise the coverage becomes the alpha channel of a black
RGBA image.  `loadGlyph` returning `none` models a raised `FT_Exception`,
which the caller catches. -/
def render_glyph (loadGlyph : String → Option FtBitmap) (name : String) :
    Option RasterImage :=
  match loadGlyph name with
  | none => none
  | some bmp =>
    if bmp.width = 0 ∨ bmp.rows = 0 then none
    else some { width := bmp.width, height := bmp.rows,
                pixels := rgbaFromCoverage bmp.buffer }

/-! ### The per-glyph source decision (converter.py lines 42-71) -/

/-- The CBDT arm of the per-glyph loop (`elif chosen_cbdt and glyph_name in
chosen_cbdt`): look the record up, and when its data is present and non-empty
run the record decoder inside `try`, so a codec failure leaves `img = None`. -/
def cbdtTry (cbdtS : Option CbdtStrike) (dec : ByteSeq → Option RasterImage)
    (name : String) : Option RasterImage :=
  match cbdtS with
  | some strike =>
    match strike.lookup name with
    | some record =>
      match record.data with
      | some d => if d.isEmpty then none else (cbdtImageBytes d).bind dec
      | none => none
    | none => none
  | none => none

/-- The `if`/`elif` chain of the glyph loop (the value of `img` after the two
bitmap sources have been consulted): the sbix entry's decode is NOT wrapped
in `try`, so a codec failure there is an uncaught exception, modelled by
`Except.error ()`; the CBDT arm is consulted only when the sbix strike has no
entry at all for the glyph, because the `elif` condition tests entry
membership, not data emptiness. -/
def trySources (sbixS : Option SbixStrike) (cbdtS : Option CbdtStrike)
    (dec : ByteSeq → Option RasterImage) (name : String) :
    Except Unit (Option RasterImage) :=
  match sbixS with
  | some s =>
    match s.glyphData.lookup name with
    | some entry =>
      if entry.data.isEmpty then Except.ok none
      else
        match dec entry.data with
        | some img => Except.ok (some img)
        | none => Except.error ()
    | none => Except.ok (cbdtTry cbdtS dec name)
  | none => Except.ok (cbdtTry cbdtS dec name)

/-- One iteration of the glyph loop of `extract_images`: try the two bitmap
sources, and when both leave `img = None` fall back to the renderer. -/
def extractGlyph (sbixS : Option SbixStrike) (cbdtS : Option CbdtStrike)
    (dec : ByteSeq → Option RasterImage) (render : String → Option RasterImage)
    (name : String) : Except Unit (Option RasterImage) :=
  match trySources sbixS cbdtS dec name with
  | Except.error e => Except.error e
  | Except.ok (some img) => Except.ok (some img)
  | Except.ok none => Except.ok (render name)

/-- The inputs `extract_images` draws on: the font's sbix strikes (if the
table is present), its CBDT strike data, the PIL decoder and the FreeType
face. -/
structure ExtractEnv where
  sbixStrikes : Option (List SbixStrike)
  cbdtStrikes : List CbdtStrike
  dec : ByteSeq → Option RasterImage
  loadGlyph : String → Option FtBitmap

/-- The strike chosen from the sbix table for this run. -/
def ExtractEnv.chosenSbix (env : ExtractEnv) : Option SbixStrike :=
  chooseSbixStrike env.sbixStrikes

/-- The strike chosen from the CBDT table for this run. -/
def ExtractEnv.chosenCbdt (env : ExtractEnv) : Option CbdtStrike :=
  chooseCbdtStrike env.cbdtStrikes

/-- The renderer used by the fallback arm. -/
def ExtractEnv.render (env : ExtractEnv) (name : String) : Option RasterImage :=
  render_glyph env.loadGlyph name

/-- The glyph loop of `extract_images` over a glyph order: glyphs that yield
no image are skipped, produced images are recorded in order, and an uncaught
exception aborts the run. -/
def extractImagesAux (env : ExtractEnv) :
    List String → Except Unit (List (String × RasterImage))
  | [] => Except.ok []
  | name :: rest =>
    match extractGlyph env.chosenSbix env.chosenCbdt env.dec env.render name with
    | Except.error e => Except.error e
    | Except.ok none => extractImagesAux env rest
    | Except.ok (some img) =>
      match extractImagesAux env rest with
      | Except.error e => Except.error e
      | Except.ok imgs => Except.ok ((name, img) :: imgs)

/-- `extract_images` (converter.py lines 29-74): the returned glyph-name →
image mapping (the PNG-file side effect and the returned font handle are not
part of the mapping and are omitted). -/
def extract_images (env : ExtractEnv) (order : List String) :
    Except Unit (List (String × RasterImage)) :=
  extractImagesAux env order

/-! ### The sbix table builder (converter.py lines 76-98) -/

/-- One glyph record written by `embed_sbix`. -/
structure SbixBuiltGlyph where
  glyphName : String
  graphicType : String
  originOffsetX : Int
  originOffsetY : Int
  imageData : ByteSeq
  deriving DecidableEq, Repr

/-- The strike object written by `embed_sbix`: the code sets `glyphData` to an
empty dict and then populates the `glyphs` dict. -/
structure SbixBuiltStrike where
  ppem : Nat
  resolution : Nat
  glyphData : List (String × SbixGlyphEntry)
  glyphs : List (String × SbixBuiltGlyph)
  deriving DecidableEq, Repr

/-- The sbix table written by `embed_sbix`. -/
structure SbixTable where
  version : Nat
  flags : Nat
  strikes : List (Nat × SbixBuiltStrike)
  deriving DecidableEq, Repr

/-- `embed_sbix`: build a fresh strike holding one record per image — re-encoded
as PNG by the codec `enc`, with graphic type `"png "` and zero origin offsets —
and install it as the single strike of a version-1, flags-1 sbix table. -/
def embed_sbix (enc : RasterImage → ByteSeq)
    (images : List (String × RasterImage)) (ppem resolution : Nat) : SbixTable :=
  let strike : SbixBuiltStrike :=
    { ppem := ppem
      resolution := resolution
      glyphData := []
      glyphs := images.map (fun p =>
        (p.1,
          { glyphName := p.1
            graphicType := "png "
            originOffsetX := 0
            originOffsetY := 0
            imageData := enc p.2 })) }
  { version := 1, flags := 1, strikes := [(ppem, strike)] }

/-! ### A concrete executable codec

The PIL codec is an external collaborator; the theorems about `embed_sbix` are
parametric in it and only assume the encode/decode round trip.  Modelled from
the spec: the image codec encodes a pixel buffer to PNG bytes and decodes them
back; this concrete model serves to instantiate those theorems. -/

/-- Modelled from the spec: PNG encoding by the external image codec, as an
injective byte serialization starting with the PNG signature. -/
def pngEncode (img : RasterImage) : ByteSeq :=
  137 :: 80 :: 78 :: 71 :: img.width :: img.height :: img.pixels

/-- Modelled from the spec: PNG decoding by the external image codec, the
partial inverse of `pngEncode`. -/
def pngDecode (bs : ByteSeq) : Option RasterImage :=
  match bs with
  | 137 :: 80 :: 78 :: 71 :: w :: h :: px => some ⟨w, h, px⟩
  | _ => none

theorem pngDecode_pngEncode (img : RasterImage) : pngDecode (pngEncode img) = some img := rfl

/-! ## make_svg_font.py -/

/-! ### Outline stubbing (make_svg_font.py lines 22-38) -/

/-- One glyf outline entry as the stubbing code builds it. -/
structure OutlineGlyph where
  numberOfContours : Int
  endPtsOfContours : List Nat
  flags : List Nat
  coordinates : List (Int × Int)
  program : Option Unit
  deriving DecidableEq, Repr

/-- The zero-contour, zero-point stub inserted for glyphs lacking outlines. -/
def emptyOutline : OutlineGlyph :=
  { numberOfContours := 0, endPtsOfContours := [], flags := [],
    coordinates := [], program := none }

/-- The glyf table's glyph dict, as a partial map from glyph name. -/
abbrev GlyfMap := String → Option OutlineGlyph

/-- The loop body of `add_empty_outlines`: insert a stub only when the name is
not already present. -/
def insertStubIfAbsent (g : GlyfMap) (name : String) : GlyfMap :=
  match g name with
  | some _ => g
  | none => fun n => if n = name then some emptyOutline else g n

/-- The glyph-name loop of `add_empty_outlines` over the given glyph order. -/
def addEmptyOutlinesMap (g : GlyfMap) (order : List String) : GlyfMap :=
  order.foldl insertStubIfAbsent g

/-! ### SVG document generation (make_svg_font.py lines 41-56) -/

/-- What the builder reads of a PNG file in the directory: its pixel size
(via `Image.open(...).size`) and its raw bytes (`read_bytes`).  A directory is
a partial map from glyph name; `none` means `<name>.png` does not exist. -/
structure PngFile where
  width : Nat
  height : Nat
  bytes : ByteSeq
  deriving DecidableEq, Repr

/-- The PNG directory consulted by `build_svg_docs`. -/
abbrev PngDir := String → Option PngFile

/-- The base64 alphabet of `base64.b64encode`. -/
def b64Alphabet : List Char :=
  "ABCDEFGHIJKLMNOPQRSTUVWXYZabcdefghijklmnopqrstuvwxyz0123456789+/".toList

/-- The base64 digit for a 6-bit value. -/
def b64Digit (n : Nat) : Char := b64Alphabet.getD n 'A'

/-- Standard base64 encoding of a byte list, three bytes per group, with
`'='` padding (RFC 4648, as implemented by `base64.b64encode`). -/
def b64GroupsOf3 : ByteSeq → List Char
  | [] => []
  | [a] => [b64Digit (a / 4 % 64), b64Digit (a % 4 * 16), '=', '=']
  | [a, b] => [b64Digit (a / 4 % 64), b64Digit (a % 4 * 16 + b / 16 % 16),
      b64Digit (b % 16 * 4), '=']
  | a :: b :: c :: rest =>
    b64Digit (a / 4 % 64) :: b64Digit (a % 4 * 16 + b / 16 % 16) ::
      b64Digit (b % 16 * 4 + c / 64 % 4) :: b64Digit (c % 64) :: b64GroupsOf3 rest

/-- `base64.b64encode(...).decode("ascii")`. -/
def b64encode (bs : ByteSeq) : String := String.mk (b64GroupsOf3 bs)

/-- The `width="{w}"` attribute text of the emitted markup. -/
def widthAttr (w : Nat) : String := "width=\x22" ++ toString w ++ "\x22"

/-- The `height="{h}"` attribute text of the emitted markup. -/
def heightAttr (h : Nat) : String := "height=\x22" ++ toString h ++ "\x22"

/-- The `viewBox="0 0 {w} {h}"` attribute text of the emitted markup. -/
def viewBoxAttr (w h : Nat) : String :=
  "viewBox=\x220 0 " ++ toString w ++ " " ++ toString h ++ "\x22"

/-- The SVG document text built by `build_svg_docs` for an image of size
`w × h` whose base64-encoded bytes are `payload` — character for character the
Python f-string. -/
def svgMarkup (w h : Nat) (payload : String) : String :=
  "<svg xmlns=\x22http://www.w3.org/2000/svg\x22 " ++ widthAttr w ++ " " ++
    heightAttr h ++ " " ++ viewBoxAttr w h ++ "><image " ++ widthAttr w ++ " " ++
    heightAttr h ++ " href=\x22data:image/png;base64," ++ payload ++ "\x22 /></svg>"

/-- One SVG table document entry `(doc, startGID, endGID)`. -/
abbrev SvgDoc := String × Nat × Nat

/-- The `enumerate(glyph_order)` loop of `build_svg_docs`, carrying the next
glyph ID: glyphs with no PNG file are skipped, the rest contribute one
document with the singleton ID range. -/
def buildSvgDocsFrom (dir : PngDir) : Nat → List String → List SvgDoc
  | _, [] => []
  | gid, name :: rest =>
    match dir name with
    | none => buildSvgDocsFrom dir (gid + 1) rest
    | some f =>
      (svgMarkup f.width f.height (b64encode f.bytes), gid, gid) ::
        buildSvgDocsFrom dir (gid + 1) rest

/-- `build_svg_docs` (make_svg_font.py lines 41-56). -/
def build_svg_docs (order : List String) (dir : PngDir) : List SvgDoc :=
  buildSvgDocsFrom dir 0 order

/-! ### The font object of make_svg_font.py

Only the tables this script reads or writes are modelled: the glyph order, the
glyf map, loca presence, the SVG document list, and presence of the five
legacy bitmap tables. -/

/-- The loaded font as `make_svg_font.py` sees it. -/
structure Font where
  glyphOrder : List String
  glyf : Option GlyfMap
  locaPresent : Bool
  svgDocs : Option (List SvgDoc)
  sbixPresent : Bool
  cbdtPresent : Bool
  cblcPresent : Bool
  ebdtPresent : Bool
  eblcPresent : Bool

/-- `add_empty_outlines` (make_svg_font.py lines 22-38): create the glyf table
(with an empty glyph dict) when absent, insert a zero-contour stub for every
glyph of the order not already present, and install a fresh loca table. -/
def add_empty_outlines (font : Font) (order : List String) : Font :=
  let glyf0 : GlyfMap :=
    match font.glyf with
    | some g => g
    | none => fun _ => none
  { font with glyf := some (addEmptyOutlinesMap glyf0 order), locaPresent := true }

/-- `drop_bitmap_tables` (make_svg_font.py lines 59-62): delete each of the
five legacy bitmap tables when present; a no-op for each absent one. -/
def drop_bitmap_tables (font : Font) : Font :=
  let f1 := if font.sbixPresent then { font with sbixPresent := false } else font
  let f2 := if f1.cbdtPresent then { f1 with cbdtPresent := false } else f1
  let f3 := if f2.cblcPresent then { f2 with cblcPresent := false } else f2
  let f4 := if f3.ebdtPresent then { f3 with ebdtPresent := false } else f3
  if f4.eblcPresent then { f4 with eblcPresent := false } else f4

/-- `build_svg_font` (make_svg_font.py lines 75-89): stub the outlines for the
full glyph order, install the SVG table built from the PNG directory, then
strip the legacy bitmap tables.  (Loading and the final save are the external
container library.) -/
def build_svg_font (font : Font) (dir : PngDir) : Font :=
  let order := font.glyphOrder
  let f1 := add_empty_outlines font order
  let f2 := { f1 with svgDocs := some (build_svg_docs order dir) }
  drop_bitmap_tables f2

/-! ## Helper lemmas -/

theorem pyMaxByPpem_mem (a : SbixStrike) (l : List SbixStrike) :
    pyMaxByPpem a l ∈ a :: l := by
  induction l generalizing a with
  | nil => simp [pyMaxByPpem]
  | cons b rest ih =>
    by_cases hc : b.ppem > a.ppem
    · simp only [pyMaxByPpem, if_pos hc]
      have := ih b
      simp only [List.mem_cons] at this ⊢
      tauto
    · simp only [pyMaxByPpem, if_neg hc]
      have := ih a
      simp only [List.mem_cons] at this ⊢
      tauto

theorem pyMaxByPpem_le (a : SbixStrike) (l : List SbixStrike) :
    ∀ t ∈ a :: l, t.ppem ≤ (pyMaxByPpem a l).ppem := by
  induction l generalizing a with
  | nil => simp [pyMaxByPpem]
  | cons b rest ih =>
    intro t ht
    by_cases hc : b.ppem > a.ppem
    · simp only [pyMaxByPpem, if_pos hc]
      rcases List.mem_cons.mp ht with rfl | ht'
      · exact le_trans (le_of_lt hc) (ih b b (List.mem_cons_self _ _))
      · rcases List.mem_cons.mp ht' with rfl | ht''
        · exact ih t t (List.mem_cons_self _ _)
        · exact ih b t (List.mem_cons_of_mem _ ht'')
    · simp only [pyMaxByPpem, if_neg hc]
      rcases List.mem_cons.mp ht with rfl | ht'
      · exact ih t t (List.mem_cons_self _ _)
      · rcases List.mem_cons.mp ht' with rfl | ht''
        · exact le_trans (Nat.le_of_not_lt hc) (ih a a (List.mem_cons_self _ _))
        · exact ih a t (List.mem_cons_of_mem _ ht'')

theorem pyMaxByPpem_first (a : SbixStrike) (l : List SbixStrike) :
    ∃ l₁ l₂, a :: l = l₁ ++ pyMaxByPpem a l :: l₂ ∧
      ∀ t ∈ l₁, t.ppem < (pyMaxByPpem a l).ppem := by
  induction l generalizing a with
  | nil => exact ⟨[], [], rfl, by simp⟩
  | cons b rest ih =>
    by_cases hc : b.ppem > a.ppem
    · simp only [pyMaxByPpem, if_pos hc]
      obtain ⟨l₁, l₂, heq, hlt⟩ := ih b
      refine ⟨a :: l₁, l₂, by rw [List.cons_append, ← heq], ?_⟩
      intro t ht
      rcases List.mem_cons.mp ht with rfl | ht'
      · exact lt_of_lt_of_le hc (pyMaxByPpem_le b rest b (List.mem_cons_self _ _))
      · exact hlt t ht'
    · simp only [pyMaxByPpem, if_neg hc]
      obtain ⟨l₁, l₂, heq, hlt⟩ := ih a
      revert heq hlt
      generalize pyMaxByPpem a rest = M
      intro heq hlt
      cases l₁ with
      | nil =>
        simp only [List.nil_append] at heq
        injection heq with h1 h2
        refine ⟨[], b :: rest, ?_, by simp⟩
        simp only [List.nil_append, ← h1]
      | cons x l₁' =>
        simp only [List.cons_append] at heq
        injection heq with h1 h2
        refine ⟨x :: b :: l₁', l₂, ?_, ?_⟩
        · simp only [List.cons_append]
          rw [h1, h2]
        · intro t ht
          have hx : x.ppem < M.ppem := hlt x (List.mem_cons_self _ _)
          have hax : a.ppem < M.ppem := by rw [h1]; exact hx
          rcases List.mem_cons.mp ht with rfl | ht'
          · exact hx
          · rcases List.mem_cons.mp ht' with rfl | ht''
            · exact lt_of_le_of_lt (Nat.le_of_not_lt hc) hax
            · exact hlt t (List.mem_cons_of_mem _ ht'')

theorem findSubIdx_some_here {α : Type} [DecidableEq α] (pat : List α) :
    ∀ (l : List α) (off : Nat), findSubIdx pat l = some off →
      pat.isPrefixOf (l.drop off) = true := by
  intro l
  induction l with
  | nil =>
    intro off h
    simp only [findSubIdx] at h
    split at h
    · next hp =>
      subst hp
      injection h with h0
      subst h0
      rfl
    · exact absurd h (by simp)
  | cons a rest ih =>
    intro off h
    simp only [findSubIdx] at h
    split at h
    · next hyes =>
      injection h with h0
      subst h0
      simpa using hyes
    · next hno =>
      cases hfr : findSubIdx pat rest with
      | none => rw [hfr] at h; exact absurd h (by simp)
      | some k =>
        rw [hfr] at h
        simp only [Option.map_some', Option.some.injEq] at h
        subst h
        simpa using ih k hfr

theorem findSubIdx_some_least {α : Type} [DecidableEq α] (pat : List α) :
    ∀ (l : List α) (off : Nat), findSubIdx pat l = some off →
      ∀ j, j < off → pat.isPrefixOf (l.drop j) = false := by
  intro l
  induction l with
  | nil =>
    intro off h j hj
    simp only [findSubIdx] at h
    split at h
    · injection h with h0
      omega
    · exact absurd h (by simp)
  | cons a rest ih =>
    intro off h j hj
    simp only [findSubIdx] at h
    split at h
    · injection h with h0
      omega
    · next hno =>
      cases hfr : findSubIdx pat rest with
      | none => rw [hfr] at h; exact absurd h (by simp)
      | some k =>
        rw [hfr] at h
        simp only [Option.map_some', Option.some.injEq] at h
        subst h
        cases j with
        | zero => exact (Bool.not_eq_true _) ▸ hno
        | succ j' => simpa using ih k hfr j' (by omega)

theorem findSubIdx_none_ev {α : Type} [DecidableEq α] (pat : List α) :
    ∀ (l : List α), findSubIdx pat l = none →
      ∀ j, pat.isPrefixOf (l.drop j) = false := by
  intro l
  induction l with
  | nil =>
    intro h j
    simp only [findSubIdx] at h
    split at h
    · exact absurd h (by simp)
    · next hp =>
      simp only [List.drop_nil]
      cases pat with
      | nil => exact absurd rfl hp
      | cons x xs => rfl
  | cons a rest ih =>
    intro h j
    simp only [findSubIdx] at h
    split at h
    · exact absurd h (by simp)
    · next hno =>
      cases hfr : findSubIdx pat rest with
      | some k => rw [hfr] at h; exact absurd h (by simp)
      | none =>
        cases j with
        | zero => exact (Bool.not_eq_true _) ▸ hno
        | succ j' => simpa using ih hfr j'

theorem findSubIdx_of_first {α : Type} [DecidableEq α] (pat l : List α) (off : Nat)
    (h1 : pat.isPrefixOf (l.drop off) = true)
    (h2 : ∀ j, j < off → pat.isPrefixOf (l.drop j) = false) :
    findSubIdx pat l = some off := by
  cases hfr : findSubIdx pat l with
  | none =>
    have := findSubIdx_none_ev pat l hfr off
    rw [h1] at this
    exact absurd this (by simp)
  | some k =>
    rcases Nat.lt_trichotomy k off with hlt | rfl | hgt
    · have hfalse := h2 k hlt
      have hk := findSubIdx_some_here pat l k hfr
      rw [hk] at hfalse
      exact absurd hfalse (by simp)
    · rfl
    · have hfalse := findSubIdx_some_least pat l k hfr off hgt
      rw [h1] at hfalse
      exact absurd hfalse (by simp)

theorem beUint32_slice (data : ByteSeq) (h : 9 ≤ data.length) :
    beUint32 ((data.drop 5).take 4) =
      16777216 * data.getD 5 0 + 65536 * data.getD 6 0 +
        256 * data.getD 7 0 + data.getD 8 0 := by
  rcases data with _ | ⟨b0, _ | ⟨b1, _ | ⟨b2, _ | ⟨b3, _ | ⟨b4, _ | ⟨b5, _ | ⟨b6, _ | ⟨b7, _ | ⟨b8, rest⟩⟩⟩⟩⟩⟩⟩⟩⟩ <;>
    simp only [List.length_nil, List.length_cons] at h <;> try omega
  refine Eq.trans (rfl : _ = ((b5 * 256 + b6) * 256 + b7) * 256 + b8) ?_
  have h5 : (b0 :: b1 :: b2 :: b3 :: b4 :: b5 :: b6 :: b7 :: b8 :: rest).getD 5 0 = b5 := rfl
  have h6 : (b0 :: b1 :: b2 :: b3 :: b4 :: b5 :: b6 :: b7 :: b8 :: rest).getD 6 0 = b6 := rfl
  have h7 : (b0 :: b1 :: b2 :: b3 :: b4 :: b5 :: b6 :: b7 :: b8 :: rest).getD 7 0 = b7 := rfl
  have h8 : (b0 :: b1 :: b2 :: b3 :: b4 :: b5 :: b6 :: b7 :: b8 :: rest).getD 8 0 = b8 := rfl
  rw [h5, h6, h7, h8]
  ring

/-! ## Claims -/

/-- C4: strike selection — for a font whose sbix table has at least one
strike, the selector picks a strike of maximum ppem (the first maximal one in
iteration order; in particular, among strikes with ppems {64, 96, 128} in any
order it always picks the ppem-128 one); for a non-empty CBDT strike list it
picks the last strike; an absent or empty table yields no chosen strike. -/
theorem c4_strike_selection (strikes : List SbixStrike) (cstrikes : List CbdtStrike) :
    (∀ s, chooseSbixStrike (some strikes) = some s →
      s ∈ strikes ∧ (∀ t ∈ strikes, t.ppem ≤ s.ppem) ∧
      ∃ l₁ l₂, strikes = l₁ ++ s :: l₂ ∧ ∀ t ∈ l₁, t.ppem < s.ppem) ∧
    (strikes ≠ [] → (chooseSbixStrike (some strikes)).isSome = true) ∧
    ((strikes.map SbixStrike.ppem).Perm [64, 96, 128] →
      ∃ s, chooseSbixStrike (some strikes) = some s ∧ s.ppem = 128) ∧
    chooseSbixStrike none = none ∧
    chooseSbixStrike (some []) = none ∧
    (∀ c l, cstrikes = l ++ [c] → chooseCbdtStrike cstrikes = some c) ∧
    chooseCbdtStrike [] = none := by
  have hmain : ∀ s, chooseSbixStrike (some strikes) = some s →
      s ∈ strikes ∧ (∀ t ∈ strikes, t.ppem ≤ s.ppem) ∧
      ∃ l₁ l₂, strikes = l₁ ++ s :: l₂ ∧ ∀ t ∈ l₁, t.ppem < s.ppem := by
    intro s hs
    cases strikes with
    | nil => simp [chooseSbixStrike] at hs
    | cons a rest =>
      simp only [chooseSbixStrike, Option.some.injEq] at hs
      subst hs
      exact ⟨pyMaxByPpem_mem a rest, pyMaxByPpem_le a rest, pyMaxByPpem_first a rest⟩
  refine ⟨hmain, ?_, ?_, rfl, rfl, ?_, rfl⟩
  · intro hne
    cases strikes with
    | nil => exact absurd rfl hne
    | cons a rest => simp [chooseSbixStrike]
  · intro hperm
    have hne : strikes ≠ [] := by
      intro h
      subst h
      exact absurd hperm.length_eq (by simp)
    obtain ⟨a, rest, rfl⟩ := List.exists_cons_of_ne_nil hne
    refine ⟨pyMaxByPpem a rest, rfl, ?_⟩
    obtain ⟨hmem, hle, _⟩ := hmain (pyMaxByPpem a rest) rfl
    have h128 : (128 : Nat) ∈ (a :: rest).map SbixStrike.ppem :=
      hperm.mem_iff.mpr (by simp)
    obtain ⟨t, htmem, hteq⟩ := List.mem_map.mp h128
    have hup : (pyMaxByPpem a rest).ppem ∈ ([64, 96, 128] : List Nat) :=
      hperm.mem_iff.mp (List.mem_map.mpr ⟨_, hmem, rfl⟩)
    have h1 : (128 : Nat) ≤ (pyMaxByPpem a rest).ppem := hteq ▸ hle t htmem
    have h2 : (pyMaxByPpem a rest).ppem ≤ 128 := by
      simp only [List.mem_cons, List.not_mem_nil, or_false] at hup
      rcases hup with h | h | h <;> omega
    omega
  · intro c l hl
    subst hl
    simp [chooseCbdtStrike]

/-- Fixed sbix strikes used to witness the strike-selection theorem. -/
def strike64 : SbixStrike := ⟨64, 72, []⟩

/-- Fixed sbix strikes used to witness the strike-selection theorem. -/
def strike96 : SbixStrike := ⟨96, 72, []⟩

/-- Fixed sbix strikes used to witness the strike-selection theorem. -/
def strike128 : SbixStrike := ⟨128, 72, []⟩

/-- C4 witness: on strikes with ppems in the order 96, 128, 64 the selector
picks the ppem-128 strike, and on a two-strike CBDT list it picks the last. -/
theorem c4_strike_selection_witness :
    (∃ s, chooseSbixStrike (some [strike96, strike128, strike64]) = some s ∧
      s.ppem = 128) ∧
    chooseCbdtStrike [[("a", (⟨none⟩ : CbdtRecord))], []] = some [] := by
  have h := c4_strike_selection [strike96, strike128, strike64]
    [[("a", (⟨none⟩ : CbdtRecord))], []]
  exact ⟨h.2.2.1 (by decide), h.2.2.2.2.2.1 [] [[("a", ⟨none⟩)]] rfl⟩

/-- C3: the CBDT record decoder scans the blob for the PNG signature; on a hit
at the first offset where the four signature bytes occur, the image bytes are
the blob from that offset to its end (whatever the declared length field
says); when the signature occurs nowhere, the image bytes are the N bytes
starting at offset 9 where N is the big-endian uint32 stored at offsets 5-8
(an exact count whenever the blob is long enough). -/
theorem c3_cbdt_record_decoder (data : ByteSeq) :
    (∀ off, (data.drop off).take 4 = pngSignature →
      (∀ j, j < off → (data.drop j).take 4 ≠ pngSignature) →
      cbdtImageBytes data = some (data.drop off)) ∧
    ((∀ j, j < data.length → (data.drop j).take 4 ≠ pngSignature) →
      9 ≤ data.length →
      ∃ n, n = 16777216 * data.getD 5 0 + 65536 * data.getD 6 0 +
          256 * data.getD 7 0 + data.getD 8 0 ∧
        cbdtImageBytes data = some ((data.drop 9).take n) ∧
        (9 + n ≤ data.length → ((data.drop 9).take n).length = n)) := by
  have htake : ∀ j, (data.drop j).take 4 = pngSignature ↔
      pngSignature.isPrefixOf (data.drop j) = true := by
    intro j
    rw [List.isPrefixOf_iff_prefix, List.prefix_iff_eq_take]
    constructor
    · intro h
      exact h.symm
    · intro h
      exact h.symm
  constructor
  · intro off hoff hleast
    have hpre : pngSignature.isPrefixOf (data.drop off) = true := (htake off).mp hoff
    have hleast' : ∀ j, j < off → pngSignature.isPrefixOf (data.drop j) = false := by
      intro j hj
      cases hb : pngSignature.isPrefixOf (data.drop j) with
      | false => rfl
      | true => exact absurd ((htake j).mpr hb) (hleast j hj)
    unfold cbdtImageBytes
    rw [findSubIdx_of_first pngSignature data off hpre hleast']
  · intro hno hlen
    have hfr : findSubIdx pngSignature data = none := by
      cases hfr : findSubIdx pngSignature data with
      | none => rfl
      | some k =>
        exfalso
        have hk := findSubIdx_some_here pngSignature data k hfr
        have hklen : k < data.length := by
          by_contra hcon
          rw [List.drop_eq_nil_of_le (Nat.le_of_not_lt hcon)] at hk
          exact absurd hk (by decide)
        exact absurd ((htake k).mpr hk) (hno k hklen)
    refine ⟨beUint32 ((data.drop 5).take 4), beUint32_slice data hlen, ?_, ?_⟩
    · unfold cbdtImageBytes
      rw [hfr, if_pos hlen]
    · intro hfit
      rw [List.length_take, List.length_drop]
      omega

/-- A blob whose declared length field (2) is wrong but which carries the PNG
signature at offset 3; used to witness the record-decoder theorem. -/
def cexCbdtBlobSig : ByteSeq := [1, 2, 3, 137, 80, 78, 71, 5, 6, 7]

/-- A signature-free blob with metrics [0,0,0,0,0], declared length 2 and
payload bytes; used to witness the record-decoder theorem. -/
def cexCbdtBlobLen : ByteSeq := [0, 0, 0, 0, 0, 0, 0, 0, 2, 10, 20, 30]

/-- C3 witness: on a blob with the signature at offset 3 the decoder returns
the bytes from offset 3 on, ignoring the bogus length field; on a
signature-free blob with declared length 2 it returns the two bytes at
offset 9. -/
theorem c3_cbdt_record_decoder_witness :
    cbdtImageBytes cexCbdtBlobSig = some [137, 80, 78, 71, 5, 6, 7] ∧
    cbdtImageBytes cexCbdtBlobLen = some [10, 20] := by
  constructor
  · exact (c3_cbdt_record_decoder cexCbdtBlobSig).1 3 (by decide) (by decide)
  · have h := (c3_cbdt_record_decoder cexCbdtBlobLen).2 (by decide) (by decide)
    obtain ⟨n, hn, heq, -⟩ := h
    have hn2 : n = 2 := by rw [hn]; decide
    rw [heq, hn2]
    rfl

/-- C1 (amended): per-glyph source priority — an sbix entry with non-empty
data that the codec decodes is used; when the sbix strike has no entry at all
for the glyph, the CBDT strike is consulted and a non-empty decode of its
record is used; when the consulted sources produce nothing the shape renderer
is invoked.  A glyph whose sbix entry exists but has EMPTY data skips the
CBDT source and goes directly to the render fallback (amendment: the claim
said such a glyph still falls through to the CBDT source first). -/
theorem c1_source_priority_amended (sbixS : Option SbixStrike)
    (cbdtS : Option CbdtStrike) (dec : ByteSeq → Option RasterImage)
    (render : String → Option RasterImage) (name : String) :
    (∀ s entry img, sbixS = some s → s.glyphData.lookup name = some entry →
      entry.data ≠ [] → dec entry.data = some img →
      extractGlyph sbixS cbdtS dec render name = Except.ok (some img)) ∧
    ((∀ s, sbixS = some s → s.glyphData.lookup name = none) →
      ∀ c record d img, cbdtS = some c → c.lookup name = some record →
      record.data = some d → d ≠ [] → (cbdtImageBytes d).bind dec = some img →
      extractGlyph sbixS cbdtS dec render name = Except.ok (some img)) ∧
    (∀ s entry, sbixS = some s → s.glyphData.lookup name = some entry →
      entry.data = [] →
      extractGlyph sbixS cbdtS dec render name = Except.ok (render name)) ∧
    ((∀ s, sbixS = some s → s.glyphData.lookup name = none) →
      cbdtTry cbdtS dec name = none →
      extractGlyph sbixS cbdtS dec render name = Except.ok (render name)) := by
  refine ⟨?_, ?_, ?_, ?_⟩
  · intro s entry img hs hl hne hdec
    subst hs
    have hie : entry.data.isEmpty = false := by
      cases hd : entry.data with
      | nil => exact absurd hd hne
      | cons x xs => rfl
    simp [extractGlyph, trySources, hl, hie, hdec]
  · intro hnos c record d img hc hl hd hdne hbind
    subst hc
    have hie : d.isEmpty = false := by
      cases hd' : d with
      | nil => exact absurd hd' hdne
      | cons x xs => rfl
    have htry : cbdtTry (some c) dec name = some img := by
      simp [cbdtTry, hl, hd, hie, hbind]
    cases sbixS with
    | none => simp [extractGlyph, trySources, htry]
    | some s => simp [extractGlyph, trySources, hnos s rfl, htry]
  · intro s entry hs hl hempty
    subst hs
    have hie : entry.data.isEmpty = true := by rw [hempty]; rfl
    simp [extractGlyph, trySources, hl, hie]
  · intro hnos htry
    cases sbixS with
    | none => simp [extractGlyph, trySources, htry]
    | some s => simp [extractGlyph, trySources, hnos s rfl, htry]

/-- The image the CBDT source decodes to in the priority counterexample. -/
def cexImgCbdt : RasterImage := ⟨1, 1, [0, 0, 0, 255]⟩

/-- The image the render fallback produces in the priority counterexample. -/
def cexImgRender : RasterImage := ⟨2, 2, [0, 0, 0, 9, 0, 0, 0, 9, 0, 0, 0, 9, 0, 0, 0, 9]⟩

/-- A codec that decodes exactly the four signature bytes, to `cexImgCbdt`. -/
def cexDec : ByteSeq → Option RasterImage :=
  fun d => if d = [137, 80, 78, 71] then some cexImgCbdt else none

/-- A renderer that always produces `cexImgRender`. -/
def cexRender : String → Option RasterImage := fun _ => some cexImgRender

/-- An sbix strike whose entry for glyph "A" has empty data. -/
def cexSbixEmptyEntry : SbixStrike := ⟨128, 72, [("A", ⟨[]⟩)]⟩

/-- A CBDT strike whose record for glyph "A" is a decodable PNG blob. -/
def cexCbdtStrikeA : CbdtStrike := [("A", ⟨some [137, 80, 78, 71]⟩)]

/-- C1 counterexample: glyph "A" has an sbix entry with empty data and a CBDT
entry whose record decodes to `cexImgCbdt`, yet extraction returns the
render-fallback image, not the CBDT image: the glyph does not fall through to
the CBDT source before the render fallback. -/
theorem c1_source_priority_cex :
    cexSbixEmptyEntry.glyphData.lookup "A" = some ⟨[]⟩ ∧
    cbdtTry (some cexCbdtStrikeA) cexDec "A" = some cexImgCbdt ∧
    extractGlyph (some cexSbixEmptyEntry) (some cexCbdtStrikeA) cexDec cexRender "A" =
      Except.ok (some cexImgRender) ∧
    extractGlyph (some cexSbixEmptyEntry) (some cexCbdtStrikeA) cexDec cexRender "A" ≠
      Except.ok (some cexImgCbdt) := by
  refine ⟨rfl, rfl, rfl, ?_⟩
  intro h
  have : cexImgRender = cexImgCbdt := by
    have h' := h
    rw [show extractGlyph (some cexSbixEmptyEntry) (some cexCbdtStrikeA) cexDec cexRender "A" =
      Except.ok (some cexImgRender) from rfl] at h'
    injection h' with h''
    injection h'' with h'''
  simp [cexImgRender, cexImgCbdt] at this

/-- An sbix strike used in the C1 witness: glyph "B" has decodable data. -/
def witSbixGood : SbixStrike := ⟨128, 72, [("B", ⟨[137, 80, 78, 71]⟩)]⟩

/-- C1 witness: the amended priority at concrete inputs — a decodable
non-empty sbix entry is used; with no sbix table the CBDT decode is used; an
empty-data sbix entry yields the rendered image. -/
theorem c1_source_priority_amended_witness :
    extractGlyph (some witSbixGood) (some cexCbdtStrikeA) cexDec cexRender "B" =
      Except.ok (some cexImgCbdt) ∧
    extractGlyph none (some cexCbdtStrikeA) cexDec cexRender "A" =
      Except.ok (some cexImgCbdt) ∧
    extractGlyph (some cexSbixEmptyEntry) none cexDec cexRender "A" =
      Except.ok (cexRender "A") := by
  refine ⟨?_, ?_, ?_⟩
  · exact (c1_source_priority_amended (some witSbixGood) (some cexCbdtStrikeA)
      cexDec cexRender "B").1 witSbixGood ⟨[137, 80, 78, 71]⟩ cexImgCbdt rfl rfl
      (by decide) (by decide)
  · exact (c1_source_priority_amended none (some cexCbdtStrikeA)
      cexDec cexRender "A").2.1 (fun s hs => by cases hs) cexCbdtStrikeA
      ⟨some [137, 80, 78, 71]⟩ [137, 80, 78, 71] cexImgCbdt rfl rfl rfl
      (by decide) (by decide)
  · exact (c1_source_priority_amended (some cexSbixEmptyEntry) none
      cexDec cexRender "A").2.2.1 cexSbixEmptyEntry ⟨[]⟩ rfl rfl rfl

/-- The per-glyph step raises an uncaught exception exactly when the sbix
entry exists with non-empty data that the codec fails to decode. -/
theorem extractGlyph_error_iff (sbixS : Option SbixStrike) (cbdtS : Option CbdtStrike)
    (dec : ByteSeq → Option RasterImage) (render : String → Option RasterImage)
    (name : String) :
    extractGlyph sbixS cbdtS dec render name = Except.error () ↔
      ∃ s entry, sbixS = some s ∧ s.glyphData.lookup name = some entry ∧
        entry.data ≠ [] ∧ dec entry.data = none := by
  constructor
  · intro h
    cases sbixS with
    | none =>
      cases hc : cbdtTry cbdtS dec name <;> simp [extractGlyph, trySources, hc] at h
    | some s =>
      cases hl : s.glyphData.lookup name with
      | none =>
        cases hc : cbdtTry cbdtS dec name <;>
          simp [extractGlyph, trySources, hl, hc] at h
      | some entry =>
        cases hie : entry.data.isEmpty with
        | true => simp [extractGlyph, trySources, hl, hie] at h
        | false =>
          cases hdec : dec entry.data with
          | some img => simp [extractGlyph, trySources, hl, hie, hdec] at h
          | none =>
            refine ⟨s, entry, rfl, hl, ?_, hdec⟩
            intro hnil
            rw [hnil] at hie
            exact absurd hie (by decide)
  · rintro ⟨s, entry, rfl, hl, hne, hdec⟩
    have hie : entry.data.isEmpty = false := by
      cases hd : entry.data with
      | nil => exact absurd hd hne
      | cons x xs => rfl
    simp [extractGlyph, trySources, hl, hie, hdec]

/-- A run of the glyph loop succeeds as soon as no glyph of the order raises
the uncaught sbix decode exception. -/
theorem extractImagesAux_ok (env : ExtractEnv) :
    ∀ (order : List String),
      (∀ name ∈ order,
        extractGlyph env.chosenSbix env.chosenCbdt env.dec env.render name ≠
          Except.error ()) →
      ∃ imgs, extractImagesAux env order = Except.ok imgs := by
  intro order
  induction order with
  | nil => exact fun _ => ⟨[], rfl⟩
  | cons name rest ih =>
    intro h
    obtain ⟨imgs, hrest⟩ := ih (fun n hn => h n (List.mem_cons_of_mem _ hn))
    cases hg : extractGlyph env.chosenSbix env.chosenCbdt env.dec env.render name with
    | error e =>
      cases e
      exact absurd hg (h name (List.mem_cons_self _ _))
    | ok o =>
      cases o with
      | none => exact ⟨imgs, by simp [extractImagesAux, hg, hrest]⟩
      | some img => exact ⟨(name, img) :: imgs, by simp [extractImagesAux, hg, hrest]⟩

/-- C2 (amended): a decode failure on CBDT record bytes is caught and
recovered locally — the glyph falls through to the render fallback (or
omission) and the failure is never fatal to a run containing such glyphs; a
decode failure on a non-empty sbix entry, however, is NOT caught: it is
exactly the condition that aborts the per-glyph step, and hence the run
(amendment: the claim said decode failures from either source are caught and
never fatal). -/
theorem c2_decode_failure_amended (env : ExtractEnv) (order : List String) :
    (∀ name, extractGlyph env.chosenSbix env.chosenCbdt env.dec env.render name =
        Except.error () ↔
      ∃ s entry, env.chosenSbix = some s ∧ s.glyphData.lookup name = some entry ∧
        entry.data ≠ [] ∧ env.dec entry.data = none) ∧
    (∀ name c record d,
      (∀ s, env.chosenSbix = some s → s.glyphData.lookup name = none) →
      env.chosenCbdt = some c → c.lookup name = some record →
      record.data = some d → d ≠ [] → (cbdtImageBytes d).bind env.dec = none →
      extractGlyph env.chosenSbix env.chosenCbdt env.dec env.render name =
        Except.ok (env.render name)) ∧
    ((∀ name ∈ order, ¬ ∃ s entry, env.chosenSbix = some s ∧
        s.glyphData.lookup name = some entry ∧ entry.data ≠ [] ∧
        env.dec entry.data = none) →
      ∃ imgs, extract_images env order = Except.ok imgs) := by
  refine ⟨?_, ?_, ?_⟩
  · intro name
    exact extractGlyph_error_iff env.chosenSbix env.chosenCbdt env.dec env.render name
  · intro name c record d hnos hc hl hd hdne hbind
    have hie : d.isEmpty = false := by
      cases hd' : d with
      | nil => exact absurd hd' hdne
      | cons x xs => rfl
    have htry : cbdtTry env.chosenCbdt env.dec name = none := by
      rw [hc]
      simp [cbdtTry, hl, hd, hie, hbind]
    cases hs : env.chosenSbix with
    | none => simp [extractGlyph, trySources, htry]
    | some s =>
      have := hnos s hs
      simp [extractGlyph, trySources, this, htry]
  · intro hnone
    apply extractImagesAux_ok
    intro name hname hcon
    exact absurd ((extractGlyph_error_iff env.chosenSbix env.chosenCbdt env.dec
      env.render name).mp hcon) (hnone name hname)

/-- An sbix strike whose entry for glyph "A" has non-empty undecodable data. -/
def cexSbixBadData : SbixStrike := ⟨128, 72, [("A", ⟨[1]⟩)]⟩

/-- A codec that fails on every input. -/
def cexDecFail : ByteSeq → Option RasterImage := fun _ => none

/-- An extraction environment whose only glyph has undecodable sbix data. -/
def cexEnvFatal : ExtractEnv := ⟨some [cexSbixBadData], [], cexDecFail, fun _ => none⟩

/-- C2 counterexample: glyph "A" has an sbix entry with non-empty data `[1]`
that the codec fails to decode; the failure is not caught — the whole
extraction run aborts with an exception instead of recovering locally. -/
theorem c2_decode_failure_cex :
    cexEnvFatal.chosenSbix = some cexSbixBadData ∧
    cexSbixBadData.glyphData.lookup "A" = some ⟨[1]⟩ ∧
    cexEnvFatal.dec [1] = none ∧
    extract_images cexEnvFatal ["A"] = Except.error () :=
  ⟨rfl, rfl, rfl, rfl⟩

/-- A CBDT strike whose record for glyph "A" is a short undecodable blob. -/
def witCbdtShort : CbdtStrike := [("A", ⟨some [9, 9, 9]⟩)]

/-- An environment with no sbix table and only the short CBDT record. -/
def witEnvCbdtFail : ExtractEnv := ⟨none, [witCbdtShort], cexDec, fun _ => some ⟨1, 1, [77]⟩⟩

/-- C2 witness: with no sbix table and a CBDT record whose bytes fail to
decode, the glyph falls through to the renderer and the run succeeds. -/
theorem c2_decode_failure_amended_witness :
    extractGlyph witEnvCbdtFail.chosenSbix witEnvCbdtFail.chosenCbdt
      witEnvCbdtFail.dec witEnvCbdtFail.render "A" =
      Except.ok (witEnvCbdtFail.render "A") ∧
    ∃ imgs, extract_images witEnvCbdtFail ["A"] = Except.ok imgs := by
  constructor
  · exact (c2_decode_failure_amended witEnvCbdtFail ["A"]).2.1 "A" witCbdtShort
      ⟨some [9, 9, 9]⟩ [9, 9, 9] (fun s hs => by cases hs) rfl rfl rfl
      (by decide) rfl
  · exact (c2_decode_failure_amended witEnvCbdtFail ["A"]).2.2 (by
      intro name hname
      rintro ⟨s, entry, hs, -⟩
      cases hs)

/-- Every pair recorded by a successful glyph loop comes from a glyph of the
order whose per-glyph step produced exactly that image. -/
theorem extractImagesAux_spec (env : ExtractEnv) :
    ∀ (order : List String) (imgs : List (String × RasterImage)),
      extractImagesAux env order = Except.ok imgs →
      ∀ p ∈ imgs, p.1 ∈ order ∧
        extractGlyph env.chosenSbix env.chosenCbdt env.dec env.render p.1 =
          Except.ok (some p.2) := by
  intro order
  induction order with
  | nil =>
    intro imgs h p hp
    simp only [extractImagesAux, Except.ok.injEq] at h
    subst h
    simp at hp
  | cons name rest ih =>
    intro imgs h p hp
    cases hg : extractGlyph env.chosenSbix env.chosenCbdt env.dec env.render name with
    | error e => simp only [extractImagesAux, hg] at h; exact absurd h (by simp)
    | ok o =>
      cases o with
      | none =>
        simp only [extractImagesAux, hg] at h
        obtain ⟨hmem, hstep⟩ := ih imgs h p hp
        exact ⟨List.mem_cons_of_mem _ hmem, hstep⟩
      | some img =>
        simp only [extractImagesAux, hg] at h
        cases hrest : extractImagesAux env rest with
        | error e => rw [hrest] at h; simp at h
        | ok imgs' =>
          rw [hrest] at h
          simp only [Except.ok.injEq] at h
          subst h
          rcases List.mem_cons.mp hp with rfl | hp'
          · exact ⟨List.mem_cons_self _ _, hg⟩
          · obtain ⟨hmem, hstep⟩ := ih imgs' hrest p hp'
            exact ⟨List.mem_cons_of_mem _ hmem, hstep⟩

/-- C9: a successful extraction run returns a mapping whose keys are a subset
of the glyph order, in which every key maps to an actual image the per-glyph
step produced, and in which glyphs whose step produced no image (no available
bitmap and failed or empty render) are omitted rather than inserted as null
entries. -/
theorem c9_image_set_invariant (env : ExtractEnv) (order : List String)
    (imgs : List (String × RasterImage))
    (h : extract_images env order = Except.ok imgs) :
    (∀ p ∈ imgs, p.1 ∈ order) ∧
    (∀ p ∈ imgs, extractGlyph env.chosenSbix env.chosenCbdt env.dec env.render p.1 =
      Except.ok (some p.2)) ∧
    (∀ name, extractGlyph env.chosenSbix env.chosenCbdt env.dec env.render name =
      Except.ok none → ∀ img, (name, img) ∉ imgs) := by
  refine ⟨fun p hp => (extractImagesAux_spec env order imgs h p hp).1,
    fun p hp => (extractImagesAux_spec env order imgs h p hp).2, ?_⟩
  intro name hnone img hmem
  have := (extractImagesAux_spec env order imgs h (name, img) hmem).2
  rw [hnone] at this
  simp at this

/-- An environment for the C9 witness: no bitmap tables; the renderer covers
glyph "A" with a 1×1 bitmap and throws on every other glyph. -/
def witEnvRender : ExtractEnv :=
  ⟨none, [], cexDec, fun n => if n = "A" then some ⟨1, 1, [200]⟩ else none⟩

/-- C9 witness: on the order ["A", "B"] the run succeeds with exactly the
rendered entry for "A"; its key lies in the order, it maps to the produced
image, and "B" (whose step yields no image) is absent. -/
theorem c9_image_set_invariant_witness :
    extract_images witEnvRender ["A", "B"] =
      Except.ok [("A", ⟨1, 1, [0, 0, 0, 200]⟩)] ∧
    "A" ∈ ["A", "B"] ∧
    extractGlyph witEnvRender.chosenSbix witEnvRender.chosenCbdt witEnvRender.dec
      witEnvRender.render "B" = Except.ok none ∧
    ∀ img, ("B", img) ∉ [(("A" : String), (⟨1, 1, [0, 0, 0, 200]⟩ : RasterImage))] := by
  refine ⟨rfl, by decide, rfl, ?_⟩
  exact (c9_image_set_invariant witEnvRender ["A", "B"]
    [("A", ⟨1, 1, [0, 0, 0, 200]⟩)] rfl).2.2 "B" rfl

/-- C5: for any glyph-image set, building an sbix table from it (with a codec
whose decode inverts its encode) yields a version-1 table with exactly one
strike, at the given ppem and resolution, holding one glyph record per entry
of the set — same names, in order — each with graphic type `"png "`, zero
origin offsets, and stored PNG bytes that decode back to exactly the image of
its entry (same dimensions and pixel/alpha data). -/
theorem c5_embed_sbix_roundtrip (enc : RasterImage → ByteSeq)
    (dec : ByteSeq → Option RasterImage) (hcodec : ∀ i, dec (enc i) = some i)
    (images : List (String × RasterImage)) (ppem resolution : Nat) :
    ∃ strike, (embed_sbix enc images ppem resolution).strikes = [(ppem, strike)] ∧
      (embed_sbix enc images ppem resolution).version = 1 ∧
      strike.ppem = ppem ∧ strike.resolution = resolution ∧
      strike.glyphs.map Prod.fst = images.map Prod.fst ∧
      (∀ n img, (n, img) ∈ images → ∃ g, (n, g) ∈ strike.glyphs ∧
        g.glyphName = n ∧ g.graphicType = "png " ∧ g.originOffsetX = 0 ∧
        g.originOffsetY = 0 ∧ dec g.imageData = some img) ∧
      (∀ n g, (n, g) ∈ strike.glyphs →
        ∃ img, (n, img) ∈ images ∧ g.imageData = enc img) := by
  refine ⟨_, rfl, rfl, rfl, rfl, ?_, ?_, ?_⟩
  · simp [embed_sbix]
  · intro n img hmem
    refine ⟨⟨n, "png ", 0, 0, enc img⟩, ?_, rfl, rfl, rfl, rfl, hcodec img⟩
    have := List.mem_map_of_mem (fun p : String × RasterImage =>
      (p.1, (⟨p.1, "png ", 0, 0, enc p.2⟩ : SbixBuiltGlyph))) hmem
    simpa using this
  · intro n g hg
    simp only [embed_sbix] at hg
    obtain ⟨p, hp, heq⟩ := List.mem_map.mp hg
    simp only [Prod.mk.injEq] at heq
    obtain ⟨h1, h2⟩ := heq
    refine ⟨p.2, ?_, ?_⟩
    · have hpe : p = (n, p.2) := by rw [← h1]
      rw [← hpe]
      exact hp
    · rw [← h2]

/-- Images used to witness the sbix builder theorem. -/
def witImages : List (String × RasterImage) :=
  [("A", ⟨1, 1, [0, 0, 0, 255]⟩), ("B", ⟨1, 2, [1, 2, 3, 4, 5, 6, 7, 8]⟩)]

/-- C5 witness: the round-trip at the concrete model codec and a two-image
set, at ppem 128 and resolution 72. -/
theorem c5_embed_sbix_roundtrip_witness :
    ∃ strike, (embed_sbix pngEncode witImages 128 72).strikes = [(128, strike)] ∧
      (embed_sbix pngEncode witImages 128 72).version = 1 ∧
      strike.ppem = 128 ∧ strike.resolution = 72 ∧
      strike.glyphs.map Prod.fst = witImages.map Prod.fst ∧
      (∀ n img, (n, img) ∈ witImages → ∃ g, (n, g) ∈ strike.glyphs ∧
        g.glyphName = n ∧ g.graphicType = "png " ∧ g.originOffsetX = 0 ∧
        g.originOffsetY = 0 ∧ pngDecode g.imageData = some img) ∧
      (∀ n g, (n, g) ∈ strike.glyphs →
        ∃ img, (n, img) ∈ witImages ∧ g.imageData = pngEncode img) :=
  c5_embed_sbix_roundtrip pngEncode pngDecode pngDecode_pngEncode witImages 128 72

/-- Stubbing one name never changes the entry of a name already present. -/
theorem insertStubIfAbsent_preserve (g : GlyfMap) (name n : String)
    (out : OutlineGlyph) (h : g n = some out) :
    insertStubIfAbsent g name n = some out := by
  simp only [insertStubIfAbsent]
  cases hgn : g name with
  | some o => exact h
  | none =>
    by_cases he : n = name
    · rw [he] at h
      rw [hgn] at h
      cases h
    · simp [he, h]

/-- Stubbing one name leaves every other name's entry unchanged. -/
theorem insertStubIfAbsent_other (g : GlyfMap) (name n : String) (he : n ≠ name) :
    insertStubIfAbsent g name n = g n := by
  simp only [insertStubIfAbsent]
  cases hgn : g name with
  | some o => rfl
  | none => simp [he]

/-- After stubbing a name, that name has an entry. -/
theorem insertStubIfAbsent_isSome_self (g : GlyfMap) (name : String) :
    ((insertStubIfAbsent g name) name).isSome = true := by
  simp only [insertStubIfAbsent]
  cases hgn : g name with
  | some o => simp [hgn]
  | none => simp

/-- The stubbing loop preserves existing entries exactly. -/
theorem addEmptyOutlinesMap_preserve :
    ∀ (order : List String) (g : GlyfMap) (n : String) (out : OutlineGlyph),
      g n = some out → addEmptyOutlinesMap g order n = some out
  | [], _, _, _, h => h
  | name :: rest, g, n, out, h =>
    addEmptyOutlinesMap_preserve rest _ n out
      (insertStubIfAbsent_preserve g name n out h)

/-- After the stubbing loop, every name of the order has an entry. -/
theorem addEmptyOutlinesMap_isSome :
    ∀ (order : List String) (g : GlyfMap) (n : String), n ∈ order →
      ((addEmptyOutlinesMap g order) n).isSome = true := by
  intro order
  induction order with
  | nil =>
    intro g n h
    simp at h
  | cons name rest ih =>
    intro g n h
    rcases List.mem_cons.mp h with rfl | h'
    · obtain ⟨out, hout⟩ :=
        Option.isSome_iff_exists.mp (insertStubIfAbsent_isSome_self g n)
      show (addEmptyOutlinesMap (insertStubIfAbsent g n) rest n).isSome = true
      rw [addEmptyOutlinesMap_preserve rest _ n out hout]
      rfl
    · exact ih (insertStubIfAbsent g name) n h'

/-- The stubbing loop leaves names outside the order untouched. -/
theorem addEmptyOutlinesMap_not_mem :
    ∀ (order : List String) (g : GlyfMap) (n : String), n ∉ order →
      addEmptyOutlinesMap g order n = g n
  | [], _, _, _ => rfl
  | name :: rest, g, n, h =>
    have hne : n ≠ name := fun he => h (he ▸ List.mem_cons_self _ _)
    (addEmptyOutlinesMap_not_mem rest _ n
        (fun hm => h (List.mem_cons_of_mem _ hm))).trans
      (insertStubIfAbsent_other g name n hne)

/-- The stubbing loop gives every absent name of the order the empty stub. -/
theorem addEmptyOutlinesMap_inserts :
    ∀ (order : List String) (g : GlyfMap) (n : String), n ∈ order → g n = none →
      addEmptyOutlinesMap g order n = some emptyOutline := by
  intro order
  induction order with
  | nil =>
    intro g n h
    simp at h
  | cons name rest ih =>
    intro g n hmem hnone
    by_cases he : n = name
    · subst he
      have h1 : insertStubIfAbsent g n n = some emptyOutline := by
        simp only [insertStubIfAbsent, hnone]
        simp
      exact addEmptyOutlinesMap_preserve rest _ n _ h1
    · rcases List.mem_cons.mp hmem with rfl | hmem'
      · exact absurd rfl he
      · refine ih _ n hmem' ?_
        rw [insertStubIfAbsent_other g name n he]
        exact hnone

/-- Stripping clears exactly the five bitmap-table slots of the font. -/
theorem drop_bitmap_tables_spec (f : Font) :
    (drop_bitmap_tables f).sbixPresent = false ∧
    (drop_bitmap_tables f).cbdtPresent = false ∧
    (drop_bitmap_tables f).cblcPresent = false ∧
    (drop_bitmap_tables f).ebdtPresent = false ∧
    (drop_bitmap_tables f).eblcPresent = false ∧
    (drop_bitmap_tables f).glyphOrder = f.glyphOrder ∧
    (drop_bitmap_tables f).glyf = f.glyf ∧
    (drop_bitmap_tables f).locaPresent = f.locaPresent ∧
    (drop_bitmap_tables f).svgDocs = f.svgDocs := by
  rcases f with ⟨go, gl, lo, sv, sb, cb, cl, eb, el⟩
  cases sb <;> cases cb <;> cases cl <;> cases eb <;> cases el <;>
    exact ⟨rfl, rfl, rfl, rfl, rfl, rfl, rfl, rfl, rfl⟩

/-- C7: after the SVG build, every glyph of the font's FULL glyph order — not
only glyphs that have a PNG — has a present (possibly empty) outline entry in
the glyf table; none is missing. -/
theorem c7_outline_presence (font : Font) (dir : PngDir) :
    ∃ m, (build_svg_font font dir).glyf = some m ∧
      ∀ name ∈ font.glyphOrder, (m name).isSome = true := by
  refine ⟨addEmptyOutlinesMap
    (match font.glyf with | some g => g | none => fun _ => none)
    font.glyphOrder, ?_, ?_⟩
  · rw [show build_svg_font font dir = drop_bitmap_tables
      { add_empty_outlines font font.glyphOrder with
        svgDocs := some (build_svg_docs font.glyphOrder dir) } from rfl]
    rw [(drop_bitmap_tables_spec _).2.2.2.2.2.2.1]
    rfl
  · intro name hname
    exact addEmptyOutlinesMap_isSome font.glyphOrder _ name hname

/-- A non-stub outline used to witness the outline theorems. -/
def witOutline : OutlineGlyph := ⟨1, [2], [3], [(4, 5)], none⟩

/-- The glyf map of the witness font: only "a" has (non-stub) outline data. -/
def witGlyf : GlyfMap := fun n => if n = "a" then some witOutline else none

/-- The witness font: two glyphs, an existing glyf entry for "a", all five
bitmap tables present, no SVG table. -/
def witFont : Font :=
  { glyphOrder := ["a", "b"]
    glyf := some witGlyf
    locaPresent := false
    svgDocs := none
    sbixPresent := true
    cbdtPresent := true
    cblcPresent := true
    ebdtPresent := true
    eblcPresent := true }

/-- C7 witness: in the built witness font both glyphs of the order have an
outline entry. -/
theorem c7_outline_presence_witness :
    ∃ m, (build_svg_font witFont (fun _ => none)).glyf = some m ∧
      ∀ name ∈ witFont.glyphOrder, (m name).isSome = true :=
  c7_outline_presence witFont (fun _ => none)

/-- C10: outline stubbing never overwrites existing outline data — every
glyph name mapped in the glyf table before the SVG build keeps exactly its
entry in the built font; absent names of the glyph order receive the empty
stub, and names absent from both stay absent. -/
theorem c10_outline_frame (font : Font) (dir : PngDir) (g : GlyfMap)
    (hg : font.glyf = some g) :
    ∃ m, (build_svg_font font dir).glyf = some m ∧
      (∀ name out, g name = some out → m name = some out) ∧
      (∀ name, g name = none → name ∈ font.glyphOrder →
        m name = some emptyOutline) ∧
      (∀ name, g name = none → name ∉ font.glyphOrder → m name = none) := by
  refine ⟨addEmptyOutlinesMap g font.glyphOrder, ?_, ?_, ?_, ?_⟩
  · rw [show build_svg_font font dir = drop_bitmap_tables
      { add_empty_outlines font font.glyphOrder with
        svgDocs := some (build_svg_docs font.glyphOrder dir) } from rfl]
    rw [(drop_bitmap_tables_spec _).2.2.2.2.2.2.1]
    show (add_empty_outlines font font.glyphOrder).glyf = _
    simp only [add_empty_outlines, hg]
  · intro name out hout
    exact addEmptyOutlinesMap_preserve font.glyphOrder g name out hout
  · intro name hnone hmem
    exact addEmptyOutlinesMap_inserts font.glyphOrder g name hmem hnone
  · intro name hnone hnmem
    rw [addEmptyOutlinesMap_not_mem font.glyphOrder g name hnmem]
    exact hnone

/-- C10 witness: in the built witness font, the pre-existing entry of "a" is
byte-for-byte unchanged, "b" received the empty stub, and a name outside the
order is still absent. -/
theorem c10_outline_frame_witness :
    ∃ m, (build_svg_font witFont (fun _ => none)).glyf = some m ∧
      m "a" = some witOutline ∧ m "b" = some emptyOutline ∧ m "zz" = none := by
  obtain ⟨m, hm, hpres, hins, habs⟩ :=
    c10_outline_frame witFont (fun _ => none) witGlyf rfl
  exact ⟨m, hm, hpres "a" witOutline rfl, hins "b" rfl (by decide),
    habs "zz" rfl (by decide)⟩

/-- C8: after SVG embedding and stripping none of the tables sbix, CBDT,
CBLC, EBDT, EBLC is present in the resulting font, whether or not each
existed in the source; the SVG table ends up populated with the built
document list, stripping runs on the font that already holds that SVG table,
and stripping itself never touches the SVG table. -/
theorem c8_strip_tables (font : Font) (dir : PngDir) :
    (build_svg_font font dir).sbixPresent = false ∧
    (build_svg_font font dir).cbdtPresent = false ∧
    (build_svg_font font dir).cblcPresent = false ∧
    (build_svg_font font dir).ebdtPresent = false ∧
    (build_svg_font font dir).eblcPresent = false ∧
    (build_svg_font font dir).svgDocs = some (build_svg_docs font.glyphOrder dir) ∧
    build_svg_font font dir = drop_bitmap_tables
      { add_empty_outlines font font.glyphOrder with
        svgDocs := some (build_svg_docs font.glyphOrder dir) } ∧
    (∀ f : Font, (drop_bitmap_tables f).svgDocs = f.svgDocs) := by
  have hb : build_svg_font font dir = drop_bitmap_tables
      { add_empty_outlines font font.glyphOrder with
        svgDocs := some (build_svg_docs font.glyphOrder dir) } := rfl
  refine ⟨?_, ?_, ?_, ?_, ?_, ?_, hb, fun f => (drop_bitmap_tables_spec f).2.2.2.2.2.2.2.2⟩
  · rw [hb]
    exact (drop_bitmap_tables_spec _).1
  · rw [hb]
    exact (drop_bitmap_tables_spec _).2.1
  · rw [hb]
    exact (drop_bitmap_tables_spec _).2.2.1
  · rw [hb]
    exact (drop_bitmap_tables_spec _).2.2.2.1
  · rw [hb]
    exact (drop_bitmap_tables_spec _).2.2.2.2.1
  · rw [hb]
    rw [(drop_bitmap_tables_spec _).2.2.2.2.2.2.2.2]

/-- `sub` occurs contiguously inside `doc`. -/
def hasSub (sub doc : String) : Prop := ∃ pre post, doc = pre ++ sub ++ post

/-- The document text declares width, height and viewBox for a `w × h`
image: it contains the attribute texts `width="w"`, `height="h"` and
`viewBox="0 0 w h"`. -/
def declaresDims (doc : String) (w h : Nat) : Prop :=
  hasSub (widthAttr w) doc ∧ hasSub (heightAttr h) doc ∧
    hasSub (viewBoxAttr w h) doc

/-- The emitted markup declares exactly the image's native pixel size. -/
theorem declaresDims_svgMarkup (w h : Nat) (p : String) :
    declaresDims (svgMarkup w h p) w h := by
  refine ⟨⟨"<svg xmlns=\x22http://www.w3.org/2000/svg\x22 ",
      " " ++ heightAttr h ++ " " ++ viewBoxAttr w h ++ "><image " ++ widthAttr w ++
        " " ++ heightAttr h ++ " href=\x22data:image/png;base64," ++ p ++
        "\x22 /></svg>", ?_⟩,
    ⟨"<svg xmlns=\x22http://www.w3.org/2000/svg\x22 " ++ widthAttr w ++ " ",
      " " ++ viewBoxAttr w h ++ "><image " ++ widthAttr w ++ " " ++ heightAttr h ++
        " href=\x22data:image/png;base64," ++ p ++ "\x22 /></svg>", ?_⟩,
    ⟨"<svg xmlns=\x22http://www.w3.org/2000/svg\x22 " ++ widthAttr w ++ " " ++
        heightAttr h ++ " ",
      "><image " ++ widthAttr w ++ " " ++ heightAttr h ++
        " href=\x22data:image/png;base64," ++ p ++ "\x22 /></svg>", ?_⟩⟩ <;>
    simp only [svgMarkup, String.append_assoc]

/-- Every document of the doc loop started at counter `k` carries a position
at least `k` and a singleton glyph-ID range. -/
theorem buildSvgDocsFrom_lb (dir : PngDir) :
    ∀ (order : List String) (k : Nat) (d : SvgDoc),
      d ∈ buildSvgDocsFrom dir k order → k ≤ d.2.1 ∧ d.2.2 = d.2.1 := by
  intro order
  induction order with
  | nil =>
    intro k d hd
    simp [buildSvgDocsFrom] at hd
  | cons a rest ih =>
    intro k d hd
    cases hda : dir a with
    | none =>
      rw [buildSvgDocsFrom, hda] at hd
      have := ih (k + 1) d hd
      exact ⟨by omega, this.2⟩
    | some f =>
      rw [buildSvgDocsFrom, hda] at hd
      rcases List.mem_cons.mp hd with rfl | hd'
      · exact ⟨Nat.le_refl k, rfl⟩
      · have := ih (k + 1) d hd'
        exact ⟨by omega, this.2⟩

/-- The glyph-ID positions of the doc loop are strictly increasing. -/
theorem buildSvgDocsFrom_sorted (dir : PngDir) :
    ∀ (order : List String) (k : Nat),
      ((buildSvgDocsFrom dir k order).map (fun d => d.2.1)).Sorted (· < ·) := by
  intro order
  induction order with
  | nil =>
    intro k
    simp [buildSvgDocsFrom]
  | cons a rest ih =>
    intro k
    cases hda : dir a with
    | none =>
      rw [buildSvgDocsFrom, hda]
      exact ih (k + 1)
    | some f =>
      rw [buildSvgDocsFrom, hda]
      rw [List.map_cons, List.sorted_cons]
      refine ⟨?_, ih (k + 1)⟩
      intro b hb
      obtain ⟨d, hd, rfl⟩ := List.mem_map.mp hb
      have := (buildSvgDocsFrom_lb dir rest (k + 1) d hd).1
      show k < d.2.1
      omega

/-- A glyph at position `gid` of the remaining order whose PNG exists
contributes its document at absolute position `k + gid`. -/
theorem buildSvgDocsFrom_mem (dir : PngDir) :
    ∀ (order : List String) (k gid : Nat) (name : String) (f : PngFile),
      order[gid]? = some name → dir name = some f →
      (svgMarkup f.width f.height (b64encode f.bytes), k + gid, k + gid) ∈
        buildSvgDocsFrom dir k order := by
  intro order
  induction order with
  | nil =>
    intro k gid name f h
    simp at h
  | cons a rest ih =>
    intro k gid name f hget hdir
    cases gid with
    | zero =>
      simp only [List.getElem?_cons_zero, Option.some.injEq] at hget
      subst hget
      rw [buildSvgDocsFrom, hdir]
      simp
    | succ g =>
      simp only [List.getElem?_cons_succ] at hget
      have hstep : k + (g + 1) = (k + 1) + g := by omega
      rw [hstep]
      cases hda : dir a with
      | none =>
        rw [buildSvgDocsFrom, hda]
        exact ih (k + 1) g name f hget hdir
      | some fa =>
        rw [buildSvgDocsFrom, hda]
        exact List.mem_cons_of_mem _ (ih (k + 1) g name f hget hdir)

/-- A glyph of the remaining order whose PNG is missing contributes no
document: no emitted position equals its absolute position. -/
theorem buildSvgDocsFrom_skip (dir : PngDir) :
    ∀ (order : List String) (k gid : Nat) (name : String),
      order[gid]? = some name → dir name = none →
      ∀ d ∈ buildSvgDocsFrom dir k order, d.2.1 ≠ k + gid := by
  intro order
  induction order with
  | nil =>
    intro k gid name h
    simp at h
  | cons a rest ih =>
    intro k gid name hget hdir d hd
    cases gid with
    | zero =>
      simp only [List.getElem?_cons_zero, Option.some.injEq] at hget
      subst hget
      rw [buildSvgDocsFrom, hdir] at hd
      have := (buildSvgDocsFrom_lb dir rest (k + 1) d hd).1
      omega
    | succ g =>
      simp only [List.getElem?_cons_succ] at hget
      cases hda : dir a with
      | none =>
        rw [buildSvgDocsFrom, hda] at hd
        have := ih (k + 1) g name hget hdir d hd
        omega
      | some fa =>
        rw [buildSvgDocsFrom, hda] at hd
        rcases List.mem_cons.mp hd with rfl | hd'
        · show k ≠ k + (g + 1)
          omega
        · have := ih (k + 1) g name hget hdir d hd'
          omega

/-- C6: for every glyph at glyph-order position `gid` whose PNG file exists,
the produced document list contains the document built from the image at the
singleton range `(gid, gid)`, whose text declares width, height and viewBox
all equal to the image's native pixel size; the list is ordered by glyph ID
ascending, every range is a singleton, and a glyph with no file gets no
document. -/
theorem c6_svg_doc_generation (order : List String) (dir : PngDir) :
    (∀ gid name f, order[gid]? = some name → dir name = some f →
      (svgMarkup f.width f.height (b64encode f.bytes), gid, gid) ∈
        build_svg_docs order dir ∧
      declaresDims (svgMarkup f.width f.height (b64encode f.bytes))
        f.width f.height) ∧
    ((build_svg_docs order dir).map (fun d => d.2.1)).Sorted (· < ·) ∧
    (∀ d ∈ build_svg_docs order dir, d.2.2 = d.2.1) ∧
    (∀ gid name, order[gid]? = some name → dir name = none →
      ∀ d ∈ build_svg_docs order dir, d.2.1 ≠ gid) := by
  refine ⟨?_, buildSvgDocsFrom_sorted dir order 0,
    fun d hd => (buildSvgDocsFrom_lb dir order 0 d hd).2, ?_⟩
  · intro gid name f hget hdir
    refine ⟨?_, declaresDims_svgMarkup f.width f.height (b64encode f.bytes)⟩
    have := buildSvgDocsFrom_mem dir order 0 gid name f hget hdir
    simpa using this
  · intro gid name hget hdir d hd
    have := buildSvgDocsFrom_skip dir order 0 gid name hget hdir d hd
    simpa using this

/-- The PNG directory of the C6 witness: only glyph "g7" has a file, a 40×40
PNG. -/
def witPngDir : PngDir :=
  fun n => if n = "g7" then some ⟨40, 40, [1, 2, 3]⟩ else none

/-- The glyph order of the C6 witness: "g7" sits at glyph ID 7. -/
def witOrder : List String :=
  ["g0", "g1", "g2", "g3", "g4", "g5", "g6", "g7"]

/-- C6 witness: the 40×40 PNG at glyph ID 7 yields a document with range
(7, 7) whose text declares 40×40, the doc list is sorted by glyph ID, and
glyph ID 0 (no file) has no document. -/
theorem c6_svg_doc_generation_witness :
    ((svgMarkup 40 40 (b64encode [1, 2, 3]), 7, 7) ∈
      build_svg_docs witOrder witPngDir ∧
      declaresDims (svgMarkup 40 40 (b64encode [1, 2, 3])) 40 40) ∧
    ((build_svg_docs witOrder witPngDir).map (fun d => d.2.1)).Sorted (· < ·) ∧
    (∀ d ∈ build_svg_docs witOrder witPngDir, d.2.1 ≠ 0) := by
  have h := c6_svg_doc_generation witOrder witPngDir
  exact ⟨h.1 7 "g7" ⟨40, 40, [1, 2, 3]⟩ rfl rfl, h.2.1, h.2.2.2 0 "g0" rfl rfl⟩

end UnicodeExplorer
